import Mathlib

/-!
Verification of the health-check core of `healthy-cli`
(`src/tools/healthy-cli/core/checker.py`, with the data model from
`core/types.py` and `core/config.py`).

The Python code is shallowly embedded: dataclasses become structures,
Python dicts become insertion-ordered association lists whose update
replaces in place (as Python dict assignment does), and the runner's
`async` check invocations become an explicit outcome map
(`String → RunOutcome`) saying, for each check name, whether `check.run`
returns a result or raises an exception.
-/

namespace Healthy

/-- `CheckStatus` from `core/types.py`: closed enumeration of verdicts. -/
inductive CheckStatus where
  | pending
  | running
  | passed
  | failed
  | skipped
  | warning
deriving DecidableEq, Repr

/-- `CheckResult` from `core/types.py`.  The `error` field holds the
captured exception; we model an exception by its `str(e)` text. -/
structure CheckResult where
  status : CheckStatus
  message : String
  details : Option String := none
  suggestion : Option String := none
  error : Option String := none
deriving DecidableEq, Repr

/-- `HealthCheck` identity data from `core/checker.py` (`name`,
`description`, `optional`, `dependencies`).  The abstract `run` method is
modelled separately by a `RunOutcome` map. -/
structure Check where
  name : String
  description : String
  optional : Bool := false
  dependencies : List String := []
deriving DecidableEq, Repr

/-- The fields of `CheckConfig` (`core/config.py`) read by the checker.
Python's `None` and `[]` are both falsy, so the optional string lists are
modelled as plain lists with `[]` for "absent". -/
structure CheckConfig where
  specific_checks : List String := []
  include_optional : List String := []
  skip_optional : Bool := false
  verbose : Bool := false
  continue_on_failure : Bool := true
deriving DecidableEq, Repr

/-! ### Ordered dictionaries

Python `dict` preserves insertion order and updates a key in place.
An association list with in-place replacement models this exactly. -/

/-- `d[k] = v` on a Python dict: replace in place if the key is present,
otherwise append at the end. -/
def dictSet (d : List (String × α)) (k : String) (v : α) : List (String × α) :=
  if d.any (fun p => p.1 = k) then
    d.map (fun p => if p.1 = k then (k, v) else p)
  else
    d ++ [(k, v)]

/-- `d.get(k)` / `d[k]` lookup on a Python dict (keys are unique, so the
first match is the entry). -/
def dictGet : List (String × α) → String → Option α
  | [], _ => none
  | p :: ps, k => if p.1 = k then some p.2 else dictGet ps k

/-- `k in d` on a Python dict. -/
def dictContains (d : List (String × α)) (k : String) : Bool :=
  d.any (fun p => p.1 = k)

/-! ### Registry (`HealthCheckRegistry`) -/

/-- `HealthCheckRegistry` from `core/checker.py`: `_checks` maps
check-name to check, `_categories` maps category-name to the ordered list
of check names registered under it. -/
structure HealthCheckRegistry where
  checks : List (String × Check) := []
  categories : List (String × List String) := []
deriving DecidableEq, Repr

namespace HealthCheckRegistry

/-- `HealthCheckRegistry.register`:
`self._checks[check.name] = check`; create the category list when the
category is new; then unconditionally append the name to that list. -/
def register (reg : HealthCheckRegistry) (check : Check)
    (category : String := "general") : HealthCheckRegistry :=
  let checks := dictSet reg.checks check.name check
  let categories :=
    if dictContains reg.categories category then reg.categories
    else dictSet reg.categories category []
  let cur := (dictGet categories category).getD []
  let categories := dictSet categories category (cur ++ [check.name])
  { checks := checks, categories := categories }

/-- `HealthCheckRegistry.get_check`: `self._checks.get(name)`. -/
def get_check (reg : HealthCheckRegistry) (name : String) : Option Check :=
  dictGet reg.checks name

/-- The list comprehension `[self._checks[name] for name in ...]`: look
every listed name up in `_checks`; a missing name raises `KeyError`,
modelled as `none`. -/
def lookupEach (checks : List (String × Check)) : List String → Option (List Check)
  | [] => some []
  | n :: ns =>
    match dictGet checks n, lookupEach checks ns with
    | some c, some cs => some (c :: cs)
    | _, _ => none

/-- `HealthCheckRegistry.get_checks_in_category`: returns `[]` for an
unknown category, otherwise looks each listed name up in `_checks`. -/
def get_checks_in_category (reg : HealthCheckRegistry) (category : String) :
    Option (List Check) :=
  match dictGet reg.categories category with
  | none => some []
  | some ns => lookupEach reg.checks ns

end HealthCheckRegistry

/-- A registry built by a sequence of `register` calls starting from the
freshly constructed (empty) registry. -/
def ofRegistrations (regs : List (Check × String)) : HealthCheckRegistry :=
  regs.foldl (fun reg p => reg.register p.1 p.2) {}

/-! ### Selection policy (`HealthCheckRunner._should_run_check`) -/

/-- `HealthCheckRunner._should_run_check`, line for line: truthiness of
`self.config.specific_checks` / `self.config.include_optional` is
non-emptiness of the list. -/
def should_run_check (config : CheckConfig) (check : Check) : Bool :=
  if !config.specific_checks.isEmpty then
    config.specific_checks.contains check.name
  else if check.optional && config.skip_optional then
    false
  else if check.optional && !config.include_optional.isEmpty then
    config.include_optional.contains check.name
  else
    !check.optional

/-- The selection policy as the spec states it (§4.3), written directly
from the spec's five ordered rules, to be compared with
`should_run_check`. -/
def specSelectionPolicy (config : CheckConfig) (check : Check) : Bool :=
  if !config.specific_checks.isEmpty then
    config.specific_checks.contains check.name
  else if check.optional then
    if config.skip_optional then
      false
    else if !config.include_optional.isEmpty then
      config.include_optional.contains check.name
    else
      false
  else
    true

/-! ### Execution order resolver (`HealthCheckRunner._get_execution_order`)

The Python loop keeps an `ordered` list and a `remaining` list.  Each pass
computes `ready`, the checks in `remaining` all of whose dependency names
already occur among the names in `ordered`.

* If `ready` is non-empty, `ordered.extend(ready)` and each element of
  `ready` is removed from `remaining` (`ready` is a fresh list here, so
  this is the ordinary fold of `remove` over `remaining`).
* If `ready` is empty, the code reports a dependency-cycle error and sets
  `ready = remaining` — an *alias*, not a copy.  `ordered.extend(ready)`
  then appends all of `remaining`, and the subsequent
  `for check in ready: remaining.remove(check)` iterates over the very
  list it is shrinking: Python's list iterator advances an index while
  `remove` shifts the elements left, so the element after each removed one
  is skipped.  Starting from index 0 the loop removes the elements at
  positions 0, 1, 2, … of the *current* list, i.e. the elements at the
  original even positions, and stops when the index reaches the shrunken
  length, leaving the odd-position elements in `remaining`.  The `while`
  loop therefore continues with those survivors instead of terminating.

`selfRemoveLoop` reproduces the aliased removal exactly: at step `idx` it
reads the element now at position `idx` and removes its first occurrence.
Both loops are written with an explicit pass-count fuel so that every
definition stays structurally recursive and executable; the fuel chosen by
the wrappers (`l.length`, `checks.length`) is an upper bound proved
sufficient by the lemmas below (each pass strictly shrinks `remaining`). -/

/-- The names of a list of checks: `[c.name for c in l]`. -/
def names (l : List Check) : List String :=
  l.map Check.name

/-- One pass's `ready` list: the checks in `remaining` with no unmet
dependencies, a dependency being met when its name occurs in `ordered`. -/
def readyOf (ordered remaining : List Check) : List Check :=
  remaining.filter (fun c => c.dependencies.all (fun d => (names ordered).contains d))

/-- `for check in ready: remaining.remove(check)` when `ready` *is*
`remaining` (the fallback's alias): while `idx` is inside the current
list, remove the first occurrence of the element at `idx`, then advance. -/
def selfRemoveLoop : Nat → Nat → List Check → List Check
  | 0, _, l => l
  | fuel + 1, idx, l =>
    if h : idx < l.length then
      selfRemoveLoop fuel (idx + 1) (l.erase (l.get ⟨idx, h⟩))
    else
      l

/-- The fallback's aliased removal of `remaining` from itself.  Each step
removes one element, so `l.length` steps are always enough fuel. -/
def selfRemove (l : List Check) : List Check :=
  selfRemoveLoop l.length 0 l

/-- The `while remaining:` loop of `_get_execution_order`, with a pass
counter as fuel.  Returns the final `ordered` list together with the
number of times the dependency-cycle diagnostic was issued (the number of
`show_error` calls delivered when a reporter is attached). -/
def orderLoop : Nat → List Check → List Check → List Check × Nat
  | _, ordered, [] => (ordered, 0)
  | 0, ordered, r :: rs => (ordered ++ r :: rs, 0)
  | fuel + 1, ordered, r :: rs =>
    let remaining := r :: rs
    let ready := readyOf ordered remaining
    if ready.isEmpty then
      let rec' := orderLoop fuel (ordered ++ remaining) (selfRemove remaining)
      (rec'.1, rec'.2 + 1)
    else
      orderLoop fuel (ordered ++ ready)
        (ready.foldl (fun acc c => acc.erase c) remaining)

/-- `HealthCheckRunner._get_execution_order`: run the loop from an empty
`ordered` and `remaining = checks`.  Every pass removes at least one
element from `remaining`, so `checks.length` passes always suffice. -/
def getExecutionOrder (checks : List Check) : List Check × Nat :=
  orderLoop checks.length [] checks

/-! ### Runner (`HealthCheckRunner.run_all_checks`) -/

/-- The outcome of awaiting `check.run(config)`: either a returned
`CheckResult`, or an exception with its `str(e)` text and the
`traceback.format_exc()` text. -/
inductive RunOutcome where
  | ok (result : CheckResult)
  | exc (message : String) (trace : String)
deriving DecidableEq, Repr

/-- A lifecycle notification delivered to the attached reporter. -/
inductive Event where
  | showWarning (message : String)
  | showError (message : String)
  | startChecks (total : Nat)
  | startCheck (name description : String)
  | completeCheck (name : String) (result : CheckResult)
  | finishChecks
deriving DecidableEq, Repr

/-- The synthetic result the `except` branch builds for a check whose
`run` raised: `status=FAILED`, message `"Check failed with exception: "`
plus `str(e)`, `details` the stack trace exactly when `config.verbose`,
and the exception itself kept in `error`. -/
def exceptionResult (config : CheckConfig) (message trace : String) : CheckResult :=
  { status := CheckStatus.failed
    message := "Check failed with exception: " ++ message
    details := if config.verbose then some trace else none
    suggestion := none
    error := some message }

/-- One iteration of the runner's per-check loop, given the accumulated
`results` dict and `overall_success`.  Returns the new results, the new
success flag, the notifications it emits, and whether the loop `break`s. -/
def processCheck (config : CheckConfig) (behavior : String → RunOutcome)
    (results : List (String × CheckResult)) (success : Bool) (check : Check) :
    List (String × CheckResult) × Bool × List Event × Bool :=
  let evStart := Event.startCheck check.name check.description
  match behavior check.name with
  | RunOutcome.ok result =>
    let results' := dictSet results check.name result
    let evDone := Event.completeCheck check.name result
    if result.status = CheckStatus.failed && !check.optional then
      (results', false, [evStart, evDone], !config.continue_on_failure)
    else
      (results', success, [evStart, evDone], false)
  | RunOutcome.exc msg trace =>
    let errorResult := exceptionResult config msg trace
    let results' := dictSet results check.name errorResult
    let evDone := Event.completeCheck check.name errorResult
    (results', false, [evStart, evDone], !config.continue_on_failure)

/-- The `for check in ordered_checks:` loop of `run_all_checks`. -/
def runLoop (config : CheckConfig) (behavior : String → RunOutcome) :
    List Check → List (String × CheckResult) → Bool →
    List (String × CheckResult) × Bool × List Event
  | [], results, success => (results, success, [])
  | check :: rest, results, success =>
    let step := processCheck config behavior results success check
    let results' := step.1
    let success' := step.2.1
    let evs := step.2.2.1
    let brk := step.2.2.2
    if brk then
      (results', success', evs)
    else
      let rest' := runLoop config behavior rest results' success'
      (rest'.1, rest'.2.1, evs ++ rest'.2.2)

/-- What `run_all_checks` produces: the returned overall-success boolean,
the final `self.results` dict, and the notifications delivered to the
reporter, in order. -/
structure RunnerOutput where
  success : Bool
  results : List (String × CheckResult)
  events : List Event
deriving DecidableEq, Repr

/-- `HealthCheckRunner.run_all_checks` over the registry's check list
(`list(self.registry.get_all_checks().values())`): select via
`_should_run_check`; if nothing is selected warn and return `True`;
otherwise order the selection (its diagnostics, if any, fire before
`start_checks`), run the loop from empty results and
`overall_success = True`, then `finish_checks`. -/
def run_all_checks (config : CheckConfig) (allChecks : List Check)
    (behavior : String → RunOutcome) : RunnerOutput :=
  let checksToRun := allChecks.filter (should_run_check config)
  if checksToRun.isEmpty then
    { success := true
      results := []
      events := [Event.showWarning "No checks to run"] }
  else
    let ordered := getExecutionOrder checksToRun
    let cycleEvents :=
      List.replicate ordered.2 (Event.showError "Dependency cycle detected in health checks")
    let run := runLoop config behavior ordered.1 [] true
    { success := run.2.1
      results := run.1
      events := cycleEvents ++ [Event.startChecks ordered.1.length]
        ++ run.2.2 ++ [Event.finishChecks] }

/-! ### Derived notions used by the claims -/

/-- A selected check makes the run fail: its `run` returns a `FAILED`
result while the check is non-optional, or its `run` raises (the `except`
branch sets `overall_success = False` without consulting optionality). -/
def failsCheck (behavior : String → RunOutcome) (c : Check) : Bool :=
  match behavior c.name with
  | RunOutcome.ok r => r.status = CheckStatus.failed && !c.optional
  | RunOutcome.exc _ _ => true

/-- The result the runner stores for a check: the returned result when
`run` returns, the synthetic exception result when `run` raises. -/
def storedResult (config : CheckConfig) (behavior : String → RunOutcome)
    (check : Check) : CheckResult :=
  match behavior check.name with
  | RunOutcome.ok r => r
  | RunOutcome.exc m t => exceptionResult config m t

/-- Every dependency name of every check refers to a check in the list
(no dependency on an unselected check). -/
def closedDeps (checks : List Check) : Bool :=
  checks.all (fun c => c.dependencies.all (fun d => (names checks).contains d))

/-- The declared-dependency relation on `checks` has no cycle.  For a
finite graph this is equivalent to: every non-empty subset `S` of the
vertices has a member none of whose dependency edges stays inside `S`
(a set in which every vertex keeps an outgoing edge inside the set
contains a cycle, and conversely the vertex set of a cycle is such a
set).  Quantifying over `checks.sublists` keeps the predicate
executable. -/
def acyclicDeps (checks : List Check) : Bool :=
  checks.sublists.all (fun S =>
    S.isEmpty || S.any (fun c => c.dependencies.all (fun d => !((names S).contains d))))

/-- The output sequence is a valid topological order with respect to the
selected names: the check at position `j` appears strictly after an
occurrence of each of its selected dependencies, i.e. each such
dependency name already occurs among the names of the first `j` output
entries. -/
def isTopoOrdered (selectedNames : List String) (out : List Check) : Prop :=
  ∀ j, ∀ hj : j < out.length, ∀ d ∈ (out.get ⟨j, hj⟩).dependencies, d ∈ selectedNames →
    d ∈ names (out.take j)

instance decidableIsTopoOrdered (selectedNames : List String) (out : List Check) :
    Decidable (isTopoOrdered selectedNames out) := by
  unfold isTopoOrdered
  infer_instance

/-- Stronger, unconditional form used as the loop invariant: every
dependency name of the check at position `j` occurs among the names of
the first `j` entries. -/
def stronglyOrdered (out : List Check) : Prop :=
  ∀ j, ∀ hj : j < out.length, ∀ d ∈ (out.get ⟨j, hj⟩).dependencies,
    d ∈ names (out.take j)

/-- The registry invariant behind `get_checks_in_category`'s totality:
every name in every category list is a key of `_checks`. -/
def RegWF (reg : HealthCheckRegistry) : Prop :=
  ∀ cat ns, dictGet reg.categories cat = some ns →
    ∀ n ∈ ns, (dictGet reg.checks n).isSome = true

/-! ### Concrete instances used by the counterexamples and witnesses -/

/-- A passing result. -/
def passedResult : CheckResult :=
  { status := CheckStatus.passed, message := "ok" }

/-- A failing result. -/
def failedResult : CheckResult :=
  { status := CheckStatus.failed, message := "bad" }

/-- Check `a` of a two-cycle (`a` depends on `b`). -/
def exCycleA : Check :=
  { name := "a", description := "a", dependencies := ["b"] }

/-- Check `b` of a two-cycle (`b` depends on `a`). -/
def exCycleB : Check :=
  { name := "b", description := "b", dependencies := ["a"] }

/-- A check whose only dependency `X` names no selected check. -/
def exOrphanA : Check :=
  { name := "a", description := "a", dependencies := ["X"] }

/-- A second check depending on the unselected name `X`. -/
def exOrphanB : Check :=
  { name := "b", description := "b", dependencies := ["X"] }

/-- A check with no dependencies. -/
def exPlainA : Check :=
  { name := "A", description := "A" }

/-- A check depending on `A`. -/
def exDepB : Check :=
  { name := "B", description := "B", dependencies := ["A"] }

/-- A check named `A` whose dependency `X` names no selected check. -/
def exOrphanCapA : Check :=
  { name := "A", description := "A", dependencies := ["X"] }

/-- An optional check. -/
def exOptional : Check :=
  { name := "o", description := "o", optional := true }

/-- Scenario check `A` (required, passes). -/
def exRunA : Check :=
  { name := "A", description := "descA" }

/-- Scenario check `B` (required, fails). -/
def exRunB : Check :=
  { name := "B", description := "descB" }

/-- Scenario check `C` (required, passes). -/
def exRunC : Check :=
  { name := "C", description := "descC" }

/-- Behavior in which `B` fails and every other check passes. -/
def behaviorBFails : String → RunOutcome :=
  fun n => if n = "B" then RunOutcome.ok failedResult else RunOutcome.ok passedResult

/-- Behavior in which every check passes. -/
def behaviorAllPass : String → RunOutcome :=
  fun _ => RunOutcome.ok passedResult

/-- Behavior in which every check raises an exception. -/
def behaviorRaise : String → RunOutcome :=
  fun _ => RunOutcome.exc "boom" "trace"

/-- A configuration with `continue_on_failure = False`. -/
def cfgStopOnFailure : CheckConfig :=
  { continue_on_failure := false }

/-- A configuration selecting the optional check `o` via
`include_optional`. -/
def cfgIncludeO : CheckConfig :=
  { include_optional := ["o"] }

/-- A check registered twice in the duplicate-registration example. -/
def dupCheck : Check :=
  { name := "a", description := "a" }

/-! ## Helper lemmas about the dictionary model -/

lemma dictGet_map_replace {α : Type} (d : List (String × α)) (k n : String) (v : α)
    (hn : n ≠ k) :
    dictGet (d.map (fun p => if p.1 = k then (k, v) else p)) n = dictGet d n := by
  induction d with
  | nil => rfl
  | cons p ps ih =>
    by_cases hp : p.1 = k
    · have h1 : ¬(k = n) := fun h => hn h.symm
      have h2 : ¬(p.1 = n) := by rw [hp]; exact h1
      simp [dictGet, hp, h1, h2, ih]
    · by_cases h3 : p.1 = n
      · simp [dictGet, hp, h3, hn]
      · simp [dictGet, hp, h3, ih]

lemma dictGet_map_replace_self {α : Type} (d : List (String × α)) (k : String) (v : α)
    (h : d.any (fun p => p.1 = k) = true) :
    dictGet (d.map (fun p => if p.1 = k then (k, v) else p)) k = some v := by
  induction d with
  | nil => simp at h
  | cons p ps ih =>
    by_cases hp : p.1 = k
    · simp [dictGet, hp]
    · have h' : ps.any (fun p => p.1 = k) = true := by
        simp only [List.any_cons, Bool.or_eq_true, decide_eq_true_eq] at h
        rcases h with h | h
        · exact absurd h hp
        · exact h
      simp [dictGet, hp, ih h']

lemma dictGet_append_single {α : Type} (d : List (String × α)) (k n : String) (v : α)
    (hn : n ≠ k) :
    dictGet (d ++ [(k, v)]) n = dictGet d n := by
  induction d with
  | nil =>
    have h1 : ¬(k = n) := fun h => hn h.symm
    simp [dictGet, h1]
  | cons p ps ih =>
    by_cases h3 : p.1 = n
    · simp [dictGet, h3]
    · simp [dictGet, h3, ih]

lemma dictGet_append_single_self {α : Type} (d : List (String × α)) (k : String) (v : α) :
    dictGet (d ++ [(k, v)]) k = (dictGet d k).getD v := by
  induction d with
  | nil => simp [dictGet]
  | cons p ps ih =>
    by_cases h3 : p.1 = k
    · simp [dictGet, h3]
    · simp [dictGet, h3, ih]

lemma dictGet_dictSet_self {α : Type} (d : List (String × α)) (k : String) (v : α) :
    dictGet (dictSet d k v) k = some v := by
  unfold dictSet
  by_cases h : d.any (fun p => p.1 = k) = true
  · simp only [h, if_true]
    exact dictGet_map_replace_self d k v h
  · simp only [h, if_false, Bool.false_eq_true]
    induction d with
    | nil => simp [dictGet]
    | cons p ps ih =>
      have hp : ¬(p.1 = k) := by
        intro hk
        exact h (by simp [List.any_cons, hk])
      have h' : ¬(ps.any (fun p => p.1 = k) = true) := by
        intro hk
        exact h (by simp [List.any_cons, hk])
      simp [dictGet, hp, ih h']

lemma dictGet_dictSet_ne {α : Type} (d : List (String × α)) (k n : String) (v : α)
    (hn : n ≠ k) :
    dictGet (dictSet d k v) n = dictGet d n := by
  unfold dictSet
  by_cases h : d.any (fun p => p.1 = k) = true
  · simp only [h, if_true]
    exact dictGet_map_replace d k n v hn
  · simp only [h, if_false, Bool.false_eq_true]
    exact dictGet_append_single d k n v hn

lemma dictContains_eq_isSome {α : Type} (d : List (String × α)) (k : String) :
    dictContains d k = (dictGet d k).isSome := by
  induction d with
  | nil => rfl
  | cons p ps ih =>
    by_cases hp : p.1 = k
    · simp [dictContains, dictGet, hp, List.any_cons]
    · simp [dictContains, dictGet, hp, List.any_cons, ← ih]

/-! ## C3: the selection policy implements the spec's five ordered rules -/

/-- C3: for every registered check and configuration, the check is
selected exactly according to the spec's five ordered rules: (1) a
non-empty `specific_checks` decides by membership alone; (2) otherwise an
optional check is dropped when `skip_optional`; (3) otherwise an optional
check is decided by membership in a non-empty `include_optional`; (4)
otherwise an optional check is not selected; (5) a non-optional check is
selected.  `should_run_check` is the source's code, `specSelectionPolicy`
the spec's wording. -/
theorem selection_follows_five_rules (config : CheckConfig) (check : Check) :
    should_run_check config check = specSelectionPolicy config check := by
  unfold should_run_check specSelectionPolicy
  cases h1 : config.specific_checks.isEmpty <;>
    cases h2 : check.optional <;>
      cases h3 : config.skip_optional <;>
        cases h4 : config.include_optional.isEmpty <;>
          simp [h1, h2, h3, h4]

/-! ## Registry lemmas -/

lemma register_get_check (reg : HealthCheckRegistry) (check : Check)
    (cat : String) (n : String) :
    (reg.register check cat).get_check n =
      if n = check.name then some check else reg.get_check n := by
  unfold HealthCheckRegistry.register HealthCheckRegistry.get_check
  by_cases h : n = check.name
  · rw [if_pos h, h]
    exact dictGet_dictSet_self reg.checks check.name check
  · rw [if_neg h]
    exact dictGet_dictSet_ne reg.checks check.name n check h

lemma register_categories (reg : HealthCheckRegistry) (check : Check) (cat : String) :
    dictGet (reg.register check cat).categories cat =
      some ((dictGet reg.categories cat).getD [] ++ [check.name]) := by
  unfold HealthCheckRegistry.register
  by_cases h : dictContains reg.categories cat = true
  · simp only [h, if_true]
    exact dictGet_dictSet_self reg.categories cat _
  · have hnone : dictGet reg.categories cat = none := by
      rw [dictContains_eq_isSome] at h
      cases hg : dictGet reg.categories cat with
      | none => rfl
      | some l => rw [hg] at h; simp at h
    simp only [h, if_false, Bool.false_eq_true]
    have h1 : dictGet (dictSet reg.categories cat ([] : List String)) cat = some [] :=
      dictGet_dictSet_self reg.categories cat []
    rw [hnone]
    simp only [Option.getD_none, List.nil_append]
    have h2 := dictGet_dictSet_self (dictSet reg.categories cat ([] : List String)) cat
      (((dictGet (dictSet reg.categories cat ([] : List String)) cat).getD []) ++ [check.name])
    rw [h1] at h2 ⊢
    simpa using h2

lemma register_categories_ne (reg : HealthCheckRegistry) (check : Check)
    (cat cat' : String) (h : cat' ≠ cat) :
    dictGet (reg.register check cat).categories cat' = dictGet reg.categories cat' := by
  unfold HealthCheckRegistry.register
  by_cases hc : dictContains reg.categories cat = true
  · simp only [hc, if_true]
    exact dictGet_dictSet_ne _ _ _ _ h
  · simp only [hc, if_false, Bool.false_eq_true]
    rw [dictGet_dictSet_ne _ _ _ _ h, dictGet_dictSet_ne _ _ _ _ h]

lemma get_check_foldl (regs : List (Check × String)) (reg : HealthCheckRegistry)
    (n : String) :
    (regs.foldl (fun r p => r.register p.1 p.2) reg).get_check n =
      ((regs.map Prod.fst).reverse.find? (fun c => c.name == n)).or
        (reg.get_check n) := by
  induction regs generalizing reg with
  | nil => simp
  | cons q qs ih =>
    rw [List.foldl_cons, ih]
    simp only [List.map_cons, List.reverse_cons, List.find?_append, Option.or_assoc]
    congr 1
    rw [register_get_check]
    by_cases h : q.1.name = n
    · simp [List.find?, h]
    · have h2 : ¬(n = q.1.name) := fun hh => h hh.symm
      have h3 : (q.1.name == n) = false := beq_eq_false_iff_ne.mpr h
      simp [List.find?, h2, h3]

/-! ## C9: registration replaces by name, appends to the category list -/

/-- C9 counterexample: registering the same check twice under the same
category appends its name twice — the category's ordered list gains a
duplicate entry, contrary to the claim's "only if that name was not
already present". -/
theorem reregistration_duplicates_category_entry :
    dictGet (ofRegistrations [(dupCheck, "general"), (dupCheck, "general")]).categories
      "general" = some ["a", "a"] := by
  decide

/-- C9 (amended): `register` replaces by name — after any sequence of
`register` calls, `get_check name` returns the most recently registered
check under that name — and *unconditionally* appends the registered name
to the given category's ordered list (so re-registering the same name
under the same category does create a duplicate entry). -/
theorem register_replaces_and_appends :
    (∀ (regs : List (Check × String)) (n : String),
        (ofRegistrations regs).get_check n =
          (regs.map Prod.fst).reverse.find? (fun c => c.name == n))
    ∧ ∀ (reg : HealthCheckRegistry) (check : Check) (cat : String),
        dictGet (reg.register check cat).categories cat =
          some ((dictGet reg.categories cat).getD [] ++ [check.name]) := by
  constructor
  · intro regs n
    have h := get_check_foldl regs {} n
    simpa [ofRegistrations, HealthCheckRegistry.get_check, dictGet] using h
  · intro reg check cat
    exact register_categories reg check cat

/-! ## C10: every category name resolves; `get_checks_in_category` is total -/

lemma regWF_empty : RegWF {} := by
  intro cat ns h n hn
  simp [dictGet] at h

lemma register_checks_isSome (reg : HealthCheckRegistry) (check : Check)
    (cat : String) (m : String)
    (hm : m = check.name ∨ (dictGet reg.checks m).isSome = true) :
    (dictGet (reg.register check cat).checks m).isSome = true := by
  have hdef : dictGet (reg.register check cat).checks m = (reg.register check cat).get_check m := rfl
  rw [hdef, register_get_check]
  by_cases h : m = check.name
  · simp [h]
  · rcases hm with hm | hm
    · exact absurd hm h
    · simpa [h, HealthCheckRegistry.get_check] using hm

lemma regWF_register (reg : HealthCheckRegistry) (check : Check) (cat : String)
    (h : RegWF reg) : RegWF (reg.register check cat) := by
  intro cat' ns hns n hn
  by_cases hcat : cat' = cat
  · subst hcat
    rw [register_categories] at hns
    have hns' := Option.some.inj hns
    rw [← hns'] at hn
    rcases List.mem_append.mp hn with hn | hn
    · cases hg : dictGet reg.categories cat' with
      | none => rw [hg] at hn; simp at hn
      | some l =>
        rw [hg] at hn
        simp only [Option.getD_some] at hn
        exact register_checks_isSome reg check cat' n (Or.inr (h cat' l hg n hn))
    · have : n = check.name := by simpa using hn
      exact register_checks_isSome reg check cat' n (Or.inl this)
  · rw [register_categories_ne reg check cat cat' hcat] at hns
    exact register_checks_isSome reg check cat n (Or.inr (h cat' ns hns n hn))

lemma regWF_ofRegistrations (regs : List (Check × String)) :
    RegWF (ofRegistrations regs) := by
  suffices h : ∀ reg, RegWF reg → RegWF (regs.foldl (fun r p => r.register p.1 p.2) reg) by
    exact h {} regWF_empty
  induction regs with
  | nil => exact fun reg h => h
  | cons q qs ih =>
    intro reg h
    exact ih (reg.register q.1 q.2) (regWF_register reg q.1 q.2 h)

lemma lookupEach_isSome (checks : List (String × Check)) (ns : List String)
    (h : ∀ n ∈ ns, (dictGet checks n).isSome = true) :
    (HealthCheckRegistry.lookupEach checks ns).isSome = true := by
  induction ns with
  | nil => rfl
  | cons n ns ih =>
    have h1 := h n (List.mem_cons_self n ns)
    cases hg : dictGet checks n with
    | none => rw [hg] at h1; simp at h1
    | some c =>
      have h2 := ih (fun m hm => h m (List.mem_cons_of_mem n hm))
      cases hl : HealthCheckRegistry.lookupEach checks ns with
      | none => rw [hl] at h2; simp at h2
      | some cs => simp [HealthCheckRegistry.lookupEach, hg, hl]

/-- C10: after any sequence of `register` calls, every name in every
category list is a key of the name-to-check mapping, so
`get_checks_in_category` is total: for every category string the lookup
of each listed name succeeds (no `KeyError`), and unknown categories
yield the empty list. -/
theorem get_checks_in_category_total (regs : List (Check × String)) (cat : String) :
    ((ofRegistrations regs).get_checks_in_category cat).isSome = true := by
  have hwf := regWF_ofRegistrations regs
  unfold HealthCheckRegistry.get_checks_in_category
  cases hg : dictGet (ofRegistrations regs).categories cat with
  | none => simp
  | some ns =>
    simp only []
    exact lookupEach_isSome (ofRegistrations regs).checks ns (hwf cat ns hg)

/-! ## Resolver lemmas -/

lemma bool_not_true_of_false {b : Bool} (h : b = false) : (!b) = true := by
  rw [h]
  rfl

lemma foldl_erase_cons_of_ne (cs : List Check) (x : Check) (xs : List Check)
    (h : ∀ c ∈ cs, ¬(c = x)) :
    List.foldl (fun acc c => acc.erase c) (x :: xs) cs =
      x :: List.foldl (fun acc c => acc.erase c) xs cs := by
  induction cs generalizing xs with
  | nil => rfl
  | cons c cs' ih =>
    have hcx : ¬(x == c) = true := by
      intro hb
      exact h c (List.mem_cons_self c cs') (beq_iff_eq.mp hb).symm
    rw [List.foldl_cons, List.foldl_cons, List.erase_cons_tail hcx]
    exact ih (xs.erase c) (fun d hd => h d (List.mem_cons_of_mem c hd))

lemma foldl_erase_filter (p : Check → Bool) (l : List Check) :
    List.foldl (fun acc c => acc.erase c) l (l.filter p) =
      l.filter (fun c => !(p c)) := by
  induction l with
  | nil => rfl
  | cons x xs ih =>
    by_cases hp : p x = true
    · rw [List.filter_cons_of_pos hp, List.foldl_cons, List.erase_cons_head,
        List.filter_cons_of_neg (by simp [hp])]
      exact ih
    · rw [List.filter_cons_of_neg (by simp [hp]),
        List.filter_cons_of_pos (by simp [hp])]
      rw [foldl_erase_cons_of_ne _ x xs (by
        intro c hc hcx
        rw [List.mem_filter] at hc
        rw [hcx] at hc
        exact hp hc.2)]
      rw [ih]

lemma selfRemoveLoop_sublist (fuel : Nat) (idx : Nat) (l : List Check) :
    (selfRemoveLoop fuel idx l).Sublist l := by
  induction fuel generalizing idx l with
  | zero => exact List.Sublist.refl l
  | succ fuel ih =>
    unfold selfRemoveLoop
    by_cases h : idx < l.length
    · simp only [h, dif_pos]
      exact (ih (idx + 1) _).trans (List.erase_sublist _ _)
    · simp only [h, dif_neg]
      exact List.Sublist.refl l

lemma selfRemoveLoop_succ (fuel idx : Nat) (l : List Check) (h : idx < l.length) :
    selfRemoveLoop (fuel + 1) idx l =
      selfRemoveLoop fuel (idx + 1) (l.erase (l.get ⟨idx, h⟩)) := by
  show (if h : idx < l.length then
      selfRemoveLoop fuel (idx + 1) (l.erase (l.get ⟨idx, h⟩)) else l) = _
  rw [dif_pos h]

lemma selfRemove_length_lt (l : List Check) (h : l ≠ []) :
    (selfRemove l).length < l.length := by
  cases l with
  | nil => exact absurd rfl h
  | cons y ys =>
    have h0 : 0 < (y :: ys).length := by simp
    have hstep : selfRemove (y :: ys) =
        selfRemoveLoop ys.length 1 ((y :: ys).erase ((y :: ys).get ⟨0, h0⟩)) :=
      selfRemoveLoop_succ ys.length 0 (y :: ys) h0
    have hmem : (y :: ys).get ⟨0, h0⟩ ∈ y :: ys := List.get_mem _ 0 h0
    have hlen : (((y :: ys).erase ((y :: ys).get ⟨0, h0⟩)).length) = ys.length := by
      rw [List.length_erase_of_mem hmem]
      simp
    rw [hstep]
    calc (selfRemoveLoop ys.length 1 ((y :: ys).erase ((y :: ys).get ⟨0, h0⟩))).length
        ≤ ((y :: ys).erase ((y :: ys).get ⟨0, h0⟩)).length :=
          (selfRemoveLoop_sublist _ _ _).length_le
      _ = ys.length := hlen
      _ < (y :: ys).length := by simp

lemma readyOf_eq_filter (ordered remaining : List Check) :
    readyOf ordered remaining =
      remaining.filter
        (fun c => c.dependencies.all (fun d => (names ordered).contains d)) := rfl

lemma orderLoop_mem (fuel : Nat) (ordered remaining : List Check) (x : Check) :
    x ∈ (orderLoop fuel ordered remaining).1 ↔ x ∈ ordered ∨ x ∈ remaining := by
  induction fuel generalizing ordered remaining with
  | zero =>
    cases remaining with
    | nil => simp [orderLoop]
    | cons r rs => simp [orderLoop, List.mem_append]
  | succ fuel ih =>
    cases remaining with
    | nil => simp [orderLoop]
    | cons r rs =>
      simp only [orderLoop]
      by_cases hready : (readyOf ordered (r :: rs)).isEmpty = true
      · simp only [hready, if_true]
        rw [ih]
        constructor
        · rintro (hx | hx)
          · rcases List.mem_append.mp hx with hx | hx
            · exact Or.inl hx
            · exact Or.inr hx
          · exact Or.inr ((selfRemoveLoop_sublist _ _ _).mem hx)
        · rintro (hx | hx)
          · exact Or.inl (List.mem_append.mpr (Or.inl hx))
          · exact Or.inl (List.mem_append.mpr (Or.inr hx))
      · simp only [hready, if_false, Bool.false_eq_true]
        rw [readyOf_eq_filter, foldl_erase_filter, ih]
        constructor
        · rintro (hx | hx)
          · rcases List.mem_append.mp hx with hx | hx
            · exact Or.inl hx
            · exact Or.inr (List.mem_filter.mp hx).1
          · exact Or.inr (List.mem_filter.mp hx).1
        · rintro (hx | hx)
          · exact Or.inl (List.mem_append.mpr (Or.inl hx))
          · by_cases hp : (fun c => c.dependencies.all
                (fun d => (names ordered).contains d)) x = true
            · exact Or.inl (List.mem_append.mpr (Or.inr (List.mem_filter.mpr ⟨hx, hp⟩)))
            · have hpx : (fun c => c.dependencies.all
                  (fun d => (names ordered).contains d)) x = false :=
                Bool.eq_false_iff.mpr hp
              exact Or.inr (List.mem_filter.mpr ⟨hx, bool_not_true_of_false hpx⟩)

lemma contains_iff_mem (l : List String) (d : String) :
    l.contains d = true ↔ d ∈ l := by
  simp

lemma readyOf_nonempty_length (ordered : List Check) (r : Check) (rs : List Check)
    (hready : ¬(readyOf ordered (r :: rs)).isEmpty = true) :
    ((r :: rs).filter (fun c =>
      !(c.dependencies.all (fun d => (names ordered).contains d)))).length ≤
      (r :: rs).length - 1 := by
  have hlt : ((r :: rs).filter (fun c =>
      !(c.dependencies.all (fun d => (names ordered).contains d)))).length <
      (r :: rs).length := by
    rw [List.length_filter_lt_length_iff_exists]
    have hex : ∃ x ∈ r :: rs,
        (x.dependencies.all (fun d => (names ordered).contains d)) = true := by
      by_contra hno
      push_neg at hno
      have hnil : (r :: rs).filter
          (fun c => c.dependencies.all (fun d => (names ordered).contains d)) = [] := by
        rw [List.filter_eq_nil_iff]
        exact fun a ha hpa => hno a ha hpa
      rw [readyOf_eq_filter, hnil] at hready
      simp at hready
    rcases hex with ⟨x, hx, hpx⟩
    refine ⟨x, hx, fun hcontra => ?_⟩
    have hcontra' : (!(x.dependencies.all (fun d => (names ordered).contains d))) = true :=
      hcontra
    rw [hpx] at hcontra'
    simp at hcontra'
  omega

lemma orderLoop_errcount_zero (fuel : Nat) :
    ∀ ordered remaining, remaining.length ≤ fuel →
      (orderLoop fuel ordered remaining).2 = 0 →
      ∀ c ∈ remaining, ∀ d ∈ c.dependencies,
        d ∈ names ordered ∨ d ∈ names remaining := by
  induction fuel with
  | zero =>
    intro ordered remaining hlen _ c hc
    rw [Nat.le_zero, List.length_eq_zero] at hlen
    subst hlen
    simp at hc
  | succ fuel ih =>
    intro ordered remaining hlen hz c hc d hd
    cases remaining with
    | nil => simp at hc
    | cons r rs =>
      simp only [orderLoop] at hz
      by_cases hready : (readyOf ordered (r :: rs)).isEmpty = true
      · simp [hready] at hz
      · simp only [hready, if_false, Bool.false_eq_true] at hz
        rw [readyOf_eq_filter, foldl_erase_filter] at hz
        by_cases hcready :
            (c.dependencies.all (fun d => (names ordered).contains d)) = true
        · have := List.all_eq_true.mp hcready d hd
          exact Or.inl ((contains_iff_mem (names ordered) d).mp (by simpa using this))
        · have hcfalse :
              (c.dependencies.all (fun d => (names ordered).contains d)) = false :=
            Bool.eq_false_iff.mpr hcready
          have hc' : c ∈ (r :: rs).filter (fun c =>
              !(c.dependencies.all (fun d => (names ordered).contains d))) :=
            List.mem_filter.mpr ⟨hc, bool_not_true_of_false hcfalse⟩
          have hlen' : ((r :: rs).filter (fun c =>
              !(c.dependencies.all (fun d => (names ordered).contains d)))).length ≤
              fuel := by
            have := readyOf_nonempty_length ordered r rs hready
            have hl2 : (r :: rs).length ≤ fuel + 1 := hlen
            omega
          have hrec := ih
            (ordered ++ (r :: rs).filter
              (fun c => c.dependencies.all (fun d => (names ordered).contains d)))
            ((r :: rs).filter (fun c =>
              !(c.dependencies.all (fun d => (names ordered).contains d))))
            hlen' hz c hc' d hd
          rcases hrec with h1 | h1
          · rw [names, List.map_append, List.mem_append] at h1
            rcases h1 with h1 | h1
            · exact Or.inl h1
            · rw [List.mem_map] at h1
              rcases h1 with ⟨x, hx, hxd⟩
              exact Or.inr (by
                rw [names, List.mem_map]
                exact ⟨x, (List.mem_filter.mp hx).1, hxd⟩)
          · rw [names, List.mem_map] at h1
            rcases h1 with ⟨x, hx, hxd⟩
            exact Or.inr (by
              rw [names, List.mem_map]
              exact ⟨x, (List.mem_filter.mp hx).1, hxd⟩)

/-! ## C2: dependencies on unselected checks -/

/-- C2 counterexample: a check whose only dependency names an unselected
check is *not* placed into the ready set on the first pass (the first
pass's `ordered` is empty, so every dependency is unmet); instead the
resolution goes through the cycle-fallback path, emitting the diagnostic. -/
theorem outside_dependency_not_first_ready :
    exOrphanA ∉ readyOf [] [exOrphanA] ∧ (getExecutionOrder [exOrphanA]).2 = 1 := by
  decide

/-- C2 (amended): a declared dependency whose name refers to a check
outside the selected subset is treated as *unmet*, not as
already-satisfied: a check with such a dependency is never in the
first-pass ready set, and the resolution takes the cycle-fallback path
(the dependency-cycle diagnostic fires at least once). -/
theorem outside_dependency_unmet_fallback (checks : List Check) (c : Check) (d : String)
    (hc : c ∈ checks) (hd : d ∈ c.dependencies) (hout : d ∉ names checks) :
    c ∉ readyOf [] checks ∧ 1 ≤ (getExecutionOrder checks).2 := by
  constructor
  · intro hmem
    have hall := (List.mem_filter.mp hmem).2
    have h2 := List.all_eq_true.mp hall d hd
    simp [names] at h2
  · by_contra hlt
    push_neg at hlt
    have hz : (orderLoop checks.length [] checks).2 = 0 := by
      have : (getExecutionOrder checks).2 = 0 := by omega
      exact this
    have hclo := orderLoop_errcount_zero checks.length [] checks le_rfl hz c hc d hd
    rcases hclo with h1 | h1
    · simp [names] at h1
    · exact hout h1

/-- Witness for the amended C2 at a concrete input. -/
theorem outside_dependency_unmet_fallback_witness :
    exOrphanA ∉ readyOf [] [exOrphanA] ∧ 1 ≤ (getExecutionOrder [exOrphanA]).2 :=
  outside_dependency_unmet_fallback [exOrphanA] exOrphanA "X"
    (by decide) (by decide) (by decide)

/-! ## C4: topological ordering -/

lemma stronglyOrdered_nil : stronglyOrdered [] := by
  intro j hj
  simp at hj

lemma names_append (l1 l2 : List Check) :
    names (l1 ++ l2) = names l1 ++ names l2 :=
  List.map_append Check.name l1 l2

lemma stronglyOrdered_append (ordered ready : List Check)
    (h : stronglyOrdered ordered)
    (hready : ∀ c ∈ ready, ∀ d ∈ c.dependencies, d ∈ names ordered) :
    stronglyOrdered (ordered ++ ready) := by
  intro j hj d hd
  rw [List.take_append_eq_append_take, names_append, List.mem_append]
  by_cases hjo : j < ordered.length
  · have hget : (ordered ++ ready).get ⟨j, hj⟩ = ordered.get ⟨j, hjo⟩ :=
      List.get_append j hjo
    rw [hget] at hd
    exact Or.inl (h j hjo d hd)
  · have hjr : j - ordered.length < ready.length := by
      rw [List.length_append] at hj
      omega
    have hget : (ordered ++ ready).get ⟨j, hj⟩ =
        ready.get ⟨j - ordered.length, hjr⟩ :=
      List.get_append_right ordered ready (by omega)
    rw [hget] at hd
    have hmem : ready.get ⟨j - ordered.length, hjr⟩ ∈ ready := List.get_mem _ _ _
    have hdep := hready _ hmem d hd
    rw [List.take_of_length_le (by omega)]
    exact Or.inl hdep

lemma readyOf_not_empty (checksAll : List Check) (hacyc : acyclicDeps checksAll = true)
    (ordered : List Check) (r : Check) (rs : List Check)
    (hsub : (r :: rs).Sublist checksAll)
    (hclo : ∀ c ∈ r :: rs, ∀ d ∈ c.dependencies,
      d ∈ names ordered ∨ d ∈ names (r :: rs)) :
    ¬(readyOf ordered (r :: rs)).isEmpty = true := by
  have hS := List.all_eq_true.mp hacyc (r :: rs) (by
    rw [List.mem_sublists]
    exact hsub)
  have hany : (r :: rs).any
      (fun c => c.dependencies.all (fun d => !((names (r :: rs)).contains d))) = true := by
    rcases Bool.or_eq_true_iff.mp hS with h | h
    · simp at h
    · exact h
  obtain ⟨c, hcmem, hcall⟩ := List.any_eq_true.mp hany
  have hnotin : ∀ d ∈ c.dependencies, d ∉ names (r :: rs) := by
    intro d hd hdin
    have := List.all_eq_true.mp hcall d hd
    rw [Bool.not_eq_true'] at this
    rw [← contains_iff_mem (names (r :: rs)) d, this] at hdin
    exact Bool.false_ne_true hdin
  have hready : c ∈ readyOf ordered (r :: rs) := by
    rw [readyOf_eq_filter]
    refine List.mem_filter.mpr ⟨hcmem, List.all_eq_true.mpr ?_⟩
    intro d hd
    rcases hclo c hcmem d hd with h1 | h1
    · exact (contains_iff_mem (names ordered) d).mpr h1
    · exact absurd h1 (hnotin d hd)
  intro hempty
  rw [List.isEmpty_iff] at hempty
  rw [hempty] at hready
  simp at hready

lemma orderLoop_topo (checksAll : List Check) (hacyc : acyclicDeps checksAll = true)
    (fuel : Nat) :
    ∀ ordered remaining, remaining.length ≤ fuel →
      remaining.Sublist checksAll →
      stronglyOrdered ordered →
      (∀ c ∈ remaining, ∀ d ∈ c.dependencies,
        d ∈ names ordered ∨ d ∈ names remaining) →
      stronglyOrdered (orderLoop fuel ordered remaining).1 := by
  induction fuel with
  | zero =>
    intro ordered remaining hlen _ hord _
    have : remaining = [] := List.length_eq_zero.mp (Nat.le_zero.mp hlen)
    subst this
    simpa [orderLoop] using hord
  | succ fuel ih =>
    intro ordered remaining hlen hsub hord hclo
    cases remaining with
    | nil => simpa [orderLoop] using hord
    | cons r rs =>
      have hreadyne := readyOf_not_empty checksAll hacyc ordered r rs hsub hclo
      simp only [orderLoop, hreadyne, if_false, Bool.false_eq_true]
      rw [readyOf_eq_filter, foldl_erase_filter]
      apply ih
      · have := readyOf_nonempty_length ordered r rs hreadyne
        have hl2 : (r :: rs).length ≤ fuel + 1 := hlen
        omega
      · exact (List.filter_sublist (r :: rs)).trans hsub
      · apply stronglyOrdered_append ordered _ hord
        intro c hc d hd
        have hp := (List.mem_filter.mp hc).2
        have := List.all_eq_true.mp hp d hd
        exact (contains_iff_mem (names ordered) d).mp this
      · intro c hc d hd
        have hcr : c ∈ r :: rs := (List.mem_filter.mp hc).1
        rcases hclo c hcr d hd with h1 | h1
        · exact Or.inl (by
            rw [names, List.map_append, List.mem_append]
            exact Or.inl h1)
        · rw [names, List.mem_map] at h1
          obtain ⟨x, hx, hxd⟩ := h1
          by_cases hpx : (x.dependencies.all
              (fun d => (names ordered).contains d)) = true
          · exact Or.inl (by
              rw [names, List.map_append, List.mem_append]
              refine Or.inr (List.mem_map.mpr ⟨x, List.mem_filter.mpr ⟨hx, hpx⟩, hxd⟩))
          · have hpfalse := Bool.eq_false_iff.mpr hpx
            exact Or.inr (by
              rw [names, List.mem_map]
              exact ⟨x, List.mem_filter.mpr
                ⟨hx, bool_not_true_of_false hpfalse⟩, hxd⟩)

/-- C4 counterexample: a selected set with *no* dependency cycle whose
resolver output is not a valid topological order.  `exDepB` (named `B`)
depends on the selected check `A`; `A`'s own dependency `X` names no
selected check.  The first pass finds nothing ready, the fallback fires,
and `B` is emitted before its selected dependency `A`. -/
theorem topo_fails_with_outside_dependency :
    acyclicDeps [exDepB, exOrphanCapA] = true ∧
      ¬ isTopoOrdered (names [exDepB, exOrphanCapA])
        (getExecutionOrder [exDepB, exOrphanCapA]).1 := by
  decide

/-- C4 (amended): for every selected set of checks whose dependency names
all refer to selected checks and whose declared-dependency relation
contains no cycle, the resolver's output is a valid topological order:
every check appears strictly after every one of its dependencies. -/
theorem execution_order_topological (checks : List Check)
    (hclosed : closedDeps checks = true) (hacyc : acyclicDeps checks = true) :
    isTopoOrdered (names checks) (getExecutionOrder checks).1 := by
  have hstr := orderLoop_topo checks hacyc checks.length [] checks le_rfl
    (List.Sublist.refl checks) stronglyOrdered_nil (by
      intro c hc d hd
      refine Or.inr ?_
      have := List.all_eq_true.mp (List.all_eq_true.mp hclosed c hc) d hd
      exact (contains_iff_mem (names checks) d).mp this)
  intro j hj d hd _
  exact hstr j hj d hd

/-- Witness for the amended C4 at a concrete input: `A` with no
dependencies and `B` depending on `A`, listed in the order `[A, B]`. -/
theorem execution_order_topological_witness :
    isTopoOrdered (names [exPlainA, exDepB])
      (getExecutionOrder [exPlainA, exDepB]).1 :=
  execution_order_topological [exPlainA, exDepB] (by decide) (by decide)

/-! ## C5: the cycle fallback duplicates checks -/

/-- C5: evaluating the resolver on a two-cycle (`a` depends on `b`, `b`
depends on `a`) yields `[a, b, b]` — check `b` is scheduled twice, so the
output is not a permutation of the two selected checks; and on two checks
both depending on the unselected name `X`, the output is `[a, b, b]` with
the dependency-cycle diagnostic emitted twice.  The fallback's
`ready = remaining` aliasing plus removal-while-iterating loses `b` from
the removal, leaving it in `remaining` for another round. -/
theorem cycle_fallback_duplicates_checks :
    getExecutionOrder [exCycleA, exCycleB] = ([exCycleA, exCycleB, exCycleB], 1) ∧
      getExecutionOrder [exOrphanA, exOrphanB] = ([exOrphanA, exOrphanB, exOrphanB], 2) := by
  decide

/-! ## Runner lemmas -/

lemma processCheck_eq (config : CheckConfig) (b : String → RunOutcome)
    (results : List (String × CheckResult)) (success : Bool) (check : Check) :
    processCheck config b results success check =
      (dictSet results check.name (storedResult config b check),
       success && !(failsCheck b check),
       [Event.startCheck check.name check.description,
        Event.completeCheck check.name (storedResult config b check)],
       failsCheck b check && !config.continue_on_failure) := by
  unfold processCheck storedResult failsCheck
  cases hb : b check.name with
  | ok r =>
    by_cases hf : (decide (r.status = CheckStatus.failed) && !check.optional) = true
    · simp [hf]
    · have hf' := Bool.eq_false_iff.mpr hf
      simp [hf']
  | exc m t => simp

lemma runLoop_success (config : CheckConfig) (b : String → RunOutcome) :
    ∀ (checks : List Check) (results : List (String × CheckResult)) (success : Bool),
      (runLoop config b checks results success).2.1 =
        (success && !(checks.any (failsCheck b))) := by
  intro checks
  induction checks with
  | nil =>
    intro results success
    simp [runLoop]
  | cons c rest ih =>
    intro results success
    simp only [runLoop, processCheck_eq]
    by_cases hbrk : (failsCheck b c && !config.continue_on_failure) = true
    · have hparts : failsCheck b c = true ∧ (!config.continue_on_failure) = true := by
        rw [Bool.and_eq_true] at hbrk
        exact hbrk
      have hf := hparts.1
      have hcont : config.continue_on_failure = false := by
        have h2 := hparts.2
        cases hc : config.continue_on_failure
        · rfl
        · rw [hc] at h2
          simp at h2
      simp [hbrk, hf, hcont]
    · have hbrk' := Bool.eq_false_iff.mpr hbrk
      simp only [hbrk', if_false, Bool.false_eq_true, ih]
      cases hf : failsCheck b c <;> cases success <;> simp [hf]

lemma mem_getExecutionOrder (checks : List Check) (x : Check) :
    x ∈ (getExecutionOrder checks).1 ↔ x ∈ checks := by
  have h := orderLoop_mem checks.length [] checks x
  simpa using h

lemma any_getExecutionOrder (checks : List Check) (p : Check → Bool) :
    ((getExecutionOrder checks).1.any p) = checks.any p := by
  apply Bool.coe_iff_coe.mp
  simp only [List.any_eq_true]
  constructor
  · rintro ⟨x, hx, hpx⟩
    exact ⟨x, (mem_getExecutionOrder checks x).mp hx, hpx⟩
  · rintro ⟨x, hx, hpx⟩
    exact ⟨x, (mem_getExecutionOrder checks x).mpr hx, hpx⟩

/-! ## C1: what flips overall success -/

/-- C1 counterexample: an *optional* check whose `run` raises an
exception does make overall success false — the `except` branch sets
`overall_success = False` without consulting `check.optional` — even
though no selected non-optional check ended with a stored `Failed`
result (the only selected check is optional). -/
theorem optional_exception_flips_success :
    (run_all_checks cfgIncludeO [exOptional] behaviorRaise).success = false ∧
      exOptional.optional = true ∧
      (run_all_checks cfgIncludeO [exOptional] behaviorRaise).results =
        [("o", exceptionResult cfgIncludeO "boom" "trace")] := by
  decide

/-- C1 (amended): the overall-success boolean returned by
`run_all_checks` is true iff no selected check fails, where a selected
check fails iff its `run` returns a result with status `Failed` while the
check is non-optional, *or* its `run` raises an exception — regardless of
optionality.  (So an optional check's returned `Failed` result never
flips overall success, but an optional check's exception does.) -/
theorem run_success_iff_no_failing_check (config : CheckConfig)
    (allChecks : List Check) (b : String → RunOutcome) :
    (run_all_checks config allChecks b).success =
      !((allChecks.filter (should_run_check config)).any (failsCheck b)) := by
  unfold run_all_checks
  by_cases hempty : (allChecks.filter (should_run_check config)).isEmpty = true
  · have hnil : allChecks.filter (should_run_check config) = [] :=
      List.isEmpty_iff.mp hempty
    simp [hempty, hnil]
  · have hempty' := Bool.eq_false_iff.mpr hempty
    simp only [hempty', if_false, Bool.false_eq_true]
    rw [runLoop_success, any_getExecutionOrder]
    simp

/-! ## C6: stop-on-failure scenario -/

/-- C6: with `continue_on_failure = false` and the ordered required
checks `[A (passes), B (fails), C (passes)]`, the runner executes `A`
then `B` and stops: overall success is false, the stored results are
exactly `A`'s and `B`'s, and `C` is never started (no `start_check`
notification for `C`), hence never run and never recorded. -/
theorem stop_on_failure_scenario :
    (run_all_checks cfgStopOnFailure [exRunA, exRunB, exRunC] behaviorBFails).success
        = false ∧
      (run_all_checks cfgStopOnFailure [exRunA, exRunB, exRunC] behaviorBFails).results
        = [("A", passedResult), ("B", failedResult)] ∧
      Event.startCheck "C" "descC" ∉
        (run_all_checks cfgStopOnFailure [exRunA, exRunB, exRunC] behaviorBFails).events := by
  decide

/-! ## C7: exceptions are contained and converted -/

/-- C7: whenever the runner invokes a check whose `run` raises, the
per-check step catches it (the step is a total function of the outcome —
nothing propagates) and stores, under the check's name, a result with
status `Failed`, the non-empty message `"Check failed with exception: "`
followed by the exception text, and `details` equal to the stack trace
exactly when `configuration.verbose` is true and absent otherwise. -/
theorem exception_converted_to_failed_result (config : CheckConfig)
    (b : String → RunOutcome) (check : Check)
    (results : List (String × CheckResult)) (success : Bool) (m t : String)
    (h : b check.name = RunOutcome.exc m t) :
    processCheck config b results success check =
      (dictSet results check.name (exceptionResult config m t), false,
        [Event.startCheck check.name check.description,
         Event.completeCheck check.name (exceptionResult config m t)],
        !config.continue_on_failure) ∧
      (exceptionResult config m t).status = CheckStatus.failed ∧
      (exceptionResult config m t).message = "Check failed with exception: " ++ m ∧
      (exceptionResult config m t).message ≠ "" ∧
      (exceptionResult config m t).details =
        (if config.verbose then some t else none) := by
  refine ⟨?_, rfl, rfl, ?_, rfl⟩
  · unfold processCheck
    rw [h]
  · intro hemp
    have hmsg : (exceptionResult config m t).message =
        "Check failed with exception: " ++ m := rfl
    rw [hmsg] at hemp
    have hlen := congrArg String.length hemp
    rw [String.length_append] at hlen
    have h29 : ("Check failed with exception: ").length = 29 := rfl
    have h0 : ("" : String).length = 0 := rfl
    rw [h29, h0] at hlen
    omega

/-- Witness for C7 at a concrete input. -/
theorem exception_converted_to_failed_result_witness :
    processCheck {} behaviorRaise [] true exOptional =
      (dictSet [] exOptional.name (exceptionResult {} "boom" "trace"), false,
        [Event.startCheck exOptional.name exOptional.description,
         Event.completeCheck exOptional.name (exceptionResult {} "boom" "trace")],
        !CheckConfig.continue_on_failure {}) ∧
      (exceptionResult {} "boom" "trace").status = CheckStatus.failed ∧
      (exceptionResult {} "boom" "trace").message =
        "Check failed with exception: " ++ "boom" ∧
      (exceptionResult {} "boom" "trace").message ≠ "" ∧
      (exceptionResult {} "boom" "trace").details =
        (if CheckConfig.verbose {} then some "trace" else none) :=
  exception_converted_to_failed_result {} behaviorRaise exOptional [] true
    "boom" "trace" rfl

/-! ## C8: the empty-selection path -/

/-- C8 counterexample: with zero selected checks the observer receives
*only* the `"No checks to run"` warning: the run-started
(`start_checks`) and run-finished (`finish_checks`) notifications are not
delivered, contrary to the claim. -/
theorem empty_selection_no_start_finish :
    (run_all_checks {} [exOptional] behaviorAllPass).events =
        [Event.showWarning "No checks to run"] ∧
      Event.finishChecks ∉ (run_all_checks {} [exOptional] behaviorAllPass).events ∧
      Event.startChecks 0 ∉ (run_all_checks {} [exOptional] behaviorAllPass).events := by
  decide

/-- C8 (amended): whenever the selection policy selects zero checks,
`run_all_checks` returns overall success `true` with an empty result set
and notifies the observer with the `"No checks to run"` warning; the
run-started/run-finished notifications and all per-check notifications
are not delivered. -/
theorem empty_selection_returns_success (config : CheckConfig)
    (allChecks : List Check) (b : String → RunOutcome)
    (h : (allChecks.filter (should_run_check config)).isEmpty = true) :
    run_all_checks config allChecks b =
      { success := true, results := [],
        events := [Event.showWarning "No checks to run"] } := by
  unfold run_all_checks
  simp [h]

/-- Witness for the amended C8 at a concrete input (a registry with one
optional check, not selected under the default configuration). -/
theorem empty_selection_returns_success_witness :
    run_all_checks {} [exOptional] behaviorAllPass =
      { success := true, results := [],
        events := [Event.showWarning "No checks to run"] } :=
  empty_selection_returns_success {} [exOptional] behaviorAllPass (by decide)

end Healthy
